import Mathlib

/-!
Verification of the Materials-KnowledgeBase core against its specification.

The Python sources are shallowly embedded: strings are `List Char`, Python
`int` is `Int` (or `Nat` where the source value is a count), Python `float`
values that only ever hold exact dyadic constants (0.75) or distances are
modelled as `ℚ`, dictionaries are association lists with Python's
replace-on-update semantics, and every fallible operation returns `Except`.
External collaborators (the embedding model, the relational store, the
generation API, the fulltext provider) are supplied as function parameters.
-/

set_option maxRecDepth 10000

/-- Python strings are modelled as lists of characters, so that slicing,
`find`/`rfind` and length have exact positional semantics. -/
abbrev Str := List Char

/-- Python whitespace (`str.strip()` with no argument, and `\s` in a `str`
regex).  The ASCII whitespace characters plus the two non-ASCII whitespace
characters that occur in mixed CJK scientific text (NBSP and the ideographic
space); other exotic Unicode whitespace is out of scope. -/
def isPySpace (c : Char) : Bool :=
  c == ' ' || c == '\t' || c == '\n' || c == '\r' || c == '\x0b' || c == '\x0c' ||
  c == ' ' || c == '　'

/-- Python `str.strip()`: drop leading and trailing whitespace. -/
def pyStrip (cs : Str) : Str :=
  ((cs.dropWhile isPySpace).reverse.dropWhile isPySpace).reverse

/-- Clamp one bound of a Python slice `s[lo:hi]` to `[0, n]`; negative
indices count from the end. -/
def sliceBound (n : Nat) (i : Int) : Nat :=
  if i < 0 then ((n : Int) + i).toNat else min i.toNat n

/-- Python slice `s[lo:hi]`. -/
def pySlice (cs : Str) (lo hi : Int) : Str :=
  (cs.take (sliceBound cs.length hi)).drop (sliceBound cs.length lo)

/-- Python slice `s[lo:]`. -/
def pyDropFrom (cs : Str) (lo : Int) : Str :=
  pySlice cs lo (cs.length : Int)

/-- Python `hay.find(needle, start)`: index of the first occurrence at or
after `start` (negative `start` counts from the end), `-1` if absent. -/
def pyFind (hay needle : Str) (start : Int) : Int :=
  let s : Nat := if start < 0 then ((hay.length : Int) + start).toNat else start.toNat
  match (List.range (hay.length + 1)).filter
      (fun i => decide (s ≤ i) && decide (i + needle.length ≤ hay.length) &&
        ((hay.drop i).take needle.length == needle)) with
  | [] => -1
  | i :: _ => (i : Int)

/-- Python `hay.rfind(needle)`: index of the last occurrence, `-1` if absent. -/
def pyRfind (hay needle : Str) : Int :=
  match ((List.range (hay.length + 1)).filter
      (fun i => decide (i + needle.length ≤ hay.length) &&
        ((hay.drop i).take needle.length == needle))).reverse with
  | [] => -1
  | i :: _ => (i : Int)

/-- The two-newline separator used by `'\n\n'.join` in the chunker. -/
def nl2 : Str := '\n' :: '\n' :: []

/-- `TextChunker._estimate_tokens`: `int(len(text) * 0.75)`.  `0.75` is an
exact binary float, so the float product truncates to `⌊3·len/4⌋` for every
length in scope. -/
def estimateTokens (text : Str) : Int :=
  ((3 * text.length) / 4 : Nat)

/-- One-pass worker for `re.split(r'\n\s*\n', text)` followed by per-piece
`strip`.  A leftmost-greedy match of `\n\s*\n` is exactly the span from the
first to the last newline of a maximal whitespace run containing at least two
newlines, so the stripped pieces are the stretches between such runs, each
stripped.  `acc` is the current piece (reversed), `pend` the pending
whitespace run (reversed) and `nl` the number of newlines in `pend`. -/
def splitParasGo : List Char → List Char → List Char → Nat → List (List Char)
  | [], acc, _, _ => [pyStrip acc.reverse]
  | c :: rest, acc, pend, nl =>
    if isPySpace c then
      splitParasGo rest acc (c :: pend) (nl + if c == '\n' then 1 else 0)
    else if nl ≥ 2 then
      pyStrip acc.reverse :: splitParasGo rest [c] [] 0
    else
      splitParasGo rest (c :: (pend ++ acc)) [] 0

/-- `TextChunker._split_into_paragraphs`: split on blank-line boundaries,
strip each piece, drop empties. -/
def splitIntoParagraphs (text : Str) : List Str :=
  (splitParasGo text [] [] 0).filter (fun p => !p.isEmpty)

/-- Sentence terminators of `TextChunker._split_into_sentences`. -/
def isSentTerm (c : Char) : Bool :=
  c == '.' || c == '!' || c == '?' || c == '。' || c == '！' || c == '？'

mutual

/-- Worker for `re.split(r'([.!?。！？]\s*)', text)` followed by the merge
loop of `_split_into_sentences`: each emitted piece is a sentence together
with its terminator and the greedy whitespace after it; text after the last
terminator is dropped (the merge loop never appends the trailing element). -/
def sentGo : List Char → List Char → List (List Char)
  | [], _ => []
  | c :: rest, acc =>
    if isSentTerm c then sentWs rest (c :: acc)
    else sentGo rest (c :: acc)

/-- Whitespace-consuming state entered after a sentence terminator. -/
def sentWs : List Char → List Char → List (List Char)
  | [], acc => [acc.reverse]
  | c :: rest, acc =>
    if isPySpace c then sentWs rest (c :: acc)
    else if isSentTerm c then acc.reverse :: sentWs rest [c]
    else acc.reverse :: sentGo rest [c]

end

/-- `TextChunker._split_into_sentences`: split, strip, drop empties. -/
def splitIntoSentences (text : Str) : List Str :=
  ((sentGo text []).map pyStrip).filter (fun s => !s.isEmpty)

/-- `TextChunker._get_overlap_text`.  The float comparisons
`pos > len * 0.3` are modelled exactly as `10 * pos > 3 * len`, which agrees
with the double-precision evaluation for every length in scope, and
`int(overlap_tokens / 0.75)` truncates to `⌊4·t/3⌋`. -/
def getOverlapText (text : Str) (start_pos : Int) (overlap_tokens : Nat) : Str :=
  if start_pos ≤ 0 then []
  else
    let overlap_chars : Int := ((4 * overlap_tokens) / 3 : Nat)
    let overlap_start := max 0 (start_pos - overlap_chars)
    let w := pySlice text overlap_start start_pos
    let para_start := pyRfind w nl2
    let w2 :=
      if 10 * para_start > 3 * (w.length : Int) then pyDropFrom w (para_start + 2)
      else
        let sent_start :=
          max (pyRfind w ['。']) (max (pyRfind w ['.'])
            (max (pyRfind w ['！']) (max (pyRfind w ['!'])
              (max (pyRfind w ['？']) (pyRfind w ['?'])))))
        if 10 * sent_start > 3 * (w.length : Int) then pyDropFrom w (sent_start + 1)
        else w
    pyStrip w2

/-- Constructor arguments of `TextChunker`. -/
structure ChunkerParams where
  chunk_size : Nat
  overlap_size : Nat
  min_chunk_size : Nat
deriving Repr

/-- The default `TextChunker(768, 120, 200)`. -/
def defaultChunker : ChunkerParams := ⟨768, 120, 200⟩

/-- A chunk record as produced by `TextChunker._create_chunk_dict`. -/
structure ChunkDict where
  chunk_id : Str
  file_id : Str
  chunk_index : Nat
  text : Str
  start_char : Int
  end_char : Int
  token_count : Int
deriving DecidableEq, Repr

/-- `TextChunker._create_chunk_dict`. -/
def mkChunkDict (file_id : Str) (chunk_index : Nat) (text : Str)
    (start_char end_char : Int) (token_count : Int) : ChunkDict :=
  { chunk_id := file_id ++ ( "_chunk_" : String).data ++ (toString chunk_index).data
    file_id := file_id
    chunk_index := chunk_index
    text := text
    start_char := start_char
    end_char := end_char
    token_count := token_count }

/-- Mutable local state of `TextChunker.chunk_text`. -/
structure ChunkState where
  chunks : List ChunkDict
  current_chunk : List Str
  current_chunk_tokens : Int
  current_start : Int
  chunk_index : Nat
  last_chunk_end : Int
deriving Repr

/-- The "save current chunk" block of `chunk_text` (joins the buffer with
blank lines, records the chunk, advances `last_chunk_end` and the index). -/
def emitChunk (fid : Str) (st : ChunkState) : ChunkState :=
  let t := List.intercalate nl2 st.current_chunk
  let cd := mkChunkDict fid st.chunk_index t st.current_start
      (st.current_start + t.length) st.current_chunk_tokens
  { st with chunks := st.chunks ++ [cd]
            last_chunk_end := st.current_start + t.length
            chunk_index := st.chunk_index + 1 }

/-- Seed the fresh buffer with the overlap window (the unguarded overlap
block at lines 159–165 of `chunker.py`). -/
def overlapReset (P : ChunkerParams) (text : Str) (st : ChunkState) : ChunkState :=
  let ov := getOverlapText text st.last_chunk_end P.overlap_size
  { st with current_chunk := if !ov.isEmpty then [ov] else []
            current_chunk_tokens := estimateTokens ov
            current_start := if !ov.isEmpty then st.last_chunk_end - ov.length
              else st.last_chunk_end }

/-- The reset applied when the overlap seed is skipped (lines 129-132 of
`chunker.py`): empty buffer starting at `last_chunk_end`. -/
def bufferReset (st : ChunkState) : ChunkState :=
  { st with current_chunk := [], current_chunk_tokens := 0,
            current_start := st.last_chunk_end }

/-- Append one unit (paragraph or sentence) to the running buffer and add
its token estimate. -/
def appendUnit (st : ChunkState) (u : Str) : ChunkState :=
  { st with current_chunk := st.current_chunk ++ [u],
            current_chunk_tokens := st.current_chunk_tokens + estimateTokens u }

/-- The emit performed before re-splitting an oversized paragraph
(lines 90-101): no overlap seed, `current_start` left unchanged. -/
def emitNoOverlap (fid : Str) (st : ChunkState) : ChunkState :=
  { emitChunk fid st with current_chunk := [], current_chunk_tokens := 0 }

/-- The overflow block of the sentence loop (lines 109-132): emit the
buffer if nonempty, then seed the overlap only when
`chunks and last_chunk_end > 0`. -/
def sentOverflow (P : ChunkerParams) (text fid : Str) (st : ChunkState) : ChunkState :=
  if !st.current_chunk.isEmpty then
    let e := emitChunk fid st
    if !e.chunks.isEmpty ∧ e.last_chunk_end > 0 then overlapReset P text e
    else bufferReset e
  else st

/-- One iteration of the sentence loop inside `chunk_text` (lines 105-137):
emit on overflow, then append the sentence and re-anchor a zero
`current_start` with `text.find(sentence)`. -/
def sentStep (P : ChunkerParams) (text fid : Str) (st : ChunkState)
    (sentence : Str) : ChunkState :=
  let st1 :=
    if st.current_chunk_tokens + estimateTokens sentence > (P.chunk_size : Int) then
      sentOverflow P text fid st
    else st
  let st2 := appendUnit st1 sentence
  if st2.current_start = 0 then { st2 with current_start := pyFind text sentence 0 }
  else st2

/-- One iteration of the paragraph loop of `chunk_text` (lines 83-173), with
its three branches: oversized paragraph (re-split into sentences), paragraph
fits the buffer, and buffer overflow (emit, seed overlap, append). -/
def paraStep (P : ChunkerParams) (text fid : Str) (st : ChunkState)
    (para : Str) : ChunkState :=
  let para_tokens := estimateTokens para
  if para_tokens > (P.chunk_size : Int) then
    (splitIntoSentences para).foldl (sentStep P text fid)
      (if !st.current_chunk.isEmpty then emitNoOverlap fid st else st)
  else if st.current_chunk_tokens + para_tokens ≤ (P.chunk_size : Int) then
    let st1 := appendUnit st para
    if st1.current_chunk.isEmpty ∨ st1.current_start = 0 then
      { st1 with current_start := pyFind text para st1.last_chunk_end }
    else st1
  else
    let st1 :=
      if !st.current_chunk.isEmpty then overlapReset P text (emitChunk fid st)
      else st
    let st2 := appendUnit st1 para
    if st2.current_start = 0 then
      { st2 with current_start := pyFind text para st2.last_chunk_end }
    else st2

/-- `TextChunker.chunk_text`: fold the paragraph loop, then emit the trailing
buffer only when its estimated size reaches `min_chunk_size`. -/
def chunkText (P : ChunkerParams) (text : Str) (file_id : Str) : List ChunkDict :=
  let paragraphs := splitIntoParagraphs text
  let st0 : ChunkState := ⟨[], [], 0, 0, 0, 0⟩
  let st := paragraphs.foldl (paraStep P text file_id) st0
  if !st.current_chunk.isEmpty then
    let t := List.intercalate nl2 st.current_chunk
    if estimateTokens t ≥ (P.min_chunk_size : Int) then
      st.chunks ++ [mkChunkDict file_id st.chunk_index t st.current_start
        (st.current_start + t.length) st.current_chunk_tokens]
    else st.chunks
  else st.chunks

/-! ### Basic facts about the chunker embedding -/

/-- Stripping never lengthens a string. -/
theorem pyStrip_length_le (cs : Str) : (pyStrip cs).length ≤ cs.length := by
  have h1 : (cs.dropWhile isPySpace).length ≤ cs.length :=
    (List.dropWhile_sublist isPySpace).length_le
  have h2 : ((cs.dropWhile isPySpace).reverse.dropWhile isPySpace).length ≤
      (cs.dropWhile isPySpace).reverse.length :=
    (List.dropWhile_sublist isPySpace).length_le
  simp only [pyStrip, List.length_reverse] at *
  omega

/-- Total footprint of a paragraph list: each paragraph plus the two
separator characters its boundary consumed. -/
def paraJ (l : List Str) : Nat := (l.map (fun p => p.length + 2)).sum

/-- Total character length of a paragraph list. -/
def sumLen (l : List Str) : Nat := (l.map List.length).sum

/-- Nat form of the token estimate. -/
def estNat (s : Str) : Nat := (3 * s.length) / 4

/-- Total token estimate of a list of units. -/
def sumEstNat (l : List Str) : Nat := (l.map estNat).sum

theorem estimateTokens_eq (s : Str) : estimateTokens s = (estNat s : Int) := rfl

theorem paraJ_cons (p : Str) (l : List Str) :
    paraJ (p :: l) = p.length + 2 + paraJ l := by
  simp [paraJ]

theorem splitParasGo_paraJ :
    ∀ (cs acc pend : List Char) (nl : Nat), nl ≤ pend.length →
      paraJ (splitParasGo cs acc pend nl) ≤ cs.length + acc.length + pend.length + 2
  | [], acc, pend, nl, _ => by
    have := pyStrip_length_le acc.reverse
    simp only [splitParasGo, paraJ, List.map_cons, List.map_nil, List.sum_cons,
      List.sum_nil, List.length_reverse] at *
    omega
  | c :: rest, acc, pend, nl, hnl => by
    simp only [splitParasGo]
    split
    · have ih := splitParasGo_paraJ rest acc (c :: pend)
        (nl + if c == '\n' then 1 else 0) (by simp; split <;> omega)
      simp only [List.length_cons] at ih ⊢
      omega
    · split
      · rename_i hnl2
        have ih := splitParasGo_paraJ rest [c] [] 0 (by simp)
        have hs := pyStrip_length_le acc.reverse
        rw [paraJ_cons]
        simp only [List.length_cons, List.length_nil, List.length_reverse] at *
        omega
      · have ih := splitParasGo_paraJ rest (c :: (pend ++ acc)) [] 0 (by simp)
        simp only [List.length_cons, List.length_append, List.length_nil] at *
        omega

theorem paraJ_filter_le (p : Str → Bool) (l : List Str) :
    paraJ (l.filter p) ≤ paraJ l := by
  induction l with
  | nil => simp [paraJ]
  | cons a l ih =>
    rw [List.filter_cons]
    split
    · rw [paraJ_cons, paraJ_cons]; omega
    · rw [paraJ_cons]; omega

/-- The stripped, filtered paragraphs of a text occupy at most its length
plus one boundary allowance. -/
theorem splitIntoParagraphs_paraJ (text : Str) :
    paraJ (splitIntoParagraphs text) ≤ text.length + 2 := by
  have h1 := paraJ_filter_le (fun p => !p.isEmpty) (splitParasGo text [] [] 0)
  have h2 := splitParasGo_paraJ text [] [] 0 (by simp)
  simp only [List.length_nil] at h2
  unfold splitIntoParagraphs
  omega

theorem paraJ_eq (l : List Str) : paraJ l = sumLen l + 2 * l.length := by
  induction l with
  | nil => simp [paraJ, sumLen]
  | cons a l ih => rw [paraJ_cons]; simp [sumLen, List.length_cons] at *; omega

theorem estNat_mono {s t : Str} (h : s.length ≤ t.length) : estNat s ≤ estNat t :=
  Nat.div_le_div_right (by omega)

theorem div4_add_le (a b : Nat) : a / 4 + b / 4 ≤ (a + b) / 4 := by
  rw [Nat.le_div_iff_mul_le (by norm_num)]
  have ha := Nat.div_mul_le_self a 4
  have hb := Nat.div_mul_le_self b 4
  omega

theorem sumEstNat_le (l : List Str) : sumEstNat l ≤ (3 * sumLen l) / 4 := by
  induction l with
  | nil => simp [sumEstNat, sumLen]
  | cons a l ih =>
    have h := div4_add_le (3 * a.length) (3 * sumLen l)
    simp only [sumEstNat, sumLen, List.map_cons, List.sum_cons, estNat] at *
    calc (3 * a.length) / 4 + (l.map estNat).sum
        ≤ (3 * a.length) / 4 + (3 * (l.map List.length).sum) / 4 := by omega
      _ ≤ (3 * a.length + 3 * (l.map List.length).sum) / 4 := h
      _ = (3 * (a.length + (l.map List.length).sum)) / 4 := by ring_nf

theorem sumEstNat_append (l₁ l₂ : List Str) :
    sumEstNat (l₁ ++ l₂) = sumEstNat l₁ + sumEstNat l₂ := by
  simp [sumEstNat]

/-- Length of the blank-line join of a nonempty buffer. -/
theorem intercalate_nl2_length :
    ∀ (a : Str) (l : List Str),
      (List.intercalate nl2 (a :: l)).length + 2 = paraJ (a :: l)
  | a, [] => by simp [List.intercalate, paraJ, nl2]
  | a, b :: l => by
    have ih := intercalate_nl2_length b l
    have : List.intercalate nl2 (a :: b :: l) =
        a ++ nl2 ++ List.intercalate nl2 (b :: l) := by
      simp [List.intercalate, List.intersperse]
    rw [this]
    rw [paraJ_cons]
    simp only [List.length_append, nl2, List.length_cons, List.length_nil] at *
    omega


/-! ### Span and token-count invariants of the chunker -/

/-- Fold preservation of an invariant. -/
theorem foldl_inv {σ α : Type _} {Inv : σ → Prop} {f : σ → α → σ}
    (hf : ∀ s a, Inv s → Inv (f s a)) :
    ∀ (l : List α) (s : σ), Inv s → Inv (l.foldl f s)
  | [], _, h => h
  | a :: l, s, h => foldl_inv hf l (f s a) (hf s a h)

/-- A chunk record whose recorded span matches its text and whose token
count is non-negative. -/
def ChunkOk (c : ChunkDict) : Prop :=
  c.end_char = c.start_char + (c.text.length : Int) ∧ 0 ≤ c.token_count

/-- The loop invariant of `chunk_text`: every emitted chunk is `ChunkOk`
and the running token count is non-negative. -/
def StOk (st : ChunkState) : Prop :=
  (∀ c ∈ st.chunks, ChunkOk c) ∧ 0 ≤ st.current_chunk_tokens

theorem estimateTokens_nonneg (s : Str) : 0 ≤ estimateTokens s := by
  rw [estimateTokens_eq]; exact Int.natCast_nonneg _

theorem emitChunk_stOk {st : ChunkState} (fid : Str) (h : StOk st) :
    StOk (emitChunk fid st) := by
  obtain ⟨hc, ht⟩ := h
  refine ⟨?_, ht⟩
  intro c hmem
  simp only [emitChunk, List.mem_append, List.mem_singleton] at hmem
  rcases hmem with hmem | rfl
  · exact hc c hmem
  · exact ⟨rfl, ht⟩

theorem overlapReset_stOk {st : ChunkState} (P : ChunkerParams) (text : Str)
    (h : StOk st) : StOk (overlapReset P text st) :=
  ⟨h.1, estimateTokens_nonneg _⟩

theorem bufferReset_stOk {st : ChunkState} (h : StOk st) : StOk (bufferReset st) :=
  ⟨h.1, le_refl 0⟩

theorem appendUnit_stOk {st : ChunkState} (u : Str) (h : StOk st) :
    StOk (appendUnit st u) := by
  refine ⟨h.1, ?_⟩
  have h1 := estimateTokens_nonneg u
  have h2 := h.2
  show 0 ≤ st.current_chunk_tokens + estimateTokens u
  omega

theorem emitNoOverlap_stOk {st : ChunkState} (fid : Str) (h : StOk st) :
    StOk (emitNoOverlap fid st) :=
  ⟨(emitChunk_stOk fid h).1, le_refl 0⟩

theorem stOk_ite {c : Prop} [Decidable c] {a b : ChunkState}
    (ha : StOk a) (hb : StOk b) : StOk (if c then a else b) := by
  split <;> assumption

theorem sentOverflow_stOk {st : ChunkState} (P : ChunkerParams) (text fid : Str)
    (h : StOk st) : StOk (sentOverflow P text fid st) := by
  unfold sentOverflow
  dsimp only
  exact stOk_ite
    (stOk_ite (overlapReset_stOk P text (emitChunk_stOk fid h))
      (bufferReset_stOk (emitChunk_stOk fid h))) h

theorem startUpdate_stOk {st : ChunkState} (x : Int) (h : StOk st) :
    StOk { st with current_start := x } :=
  ⟨h.1, h.2⟩

theorem sentStep_stOk (P : ChunkerParams) (text fid : Str) :
    ∀ (st : ChunkState) (s : Str), StOk st → StOk (sentStep P text fid st s) := by
  intro st s h
  unfold sentStep
  dsimp only
  have h2 := appendUnit_stOk s
    (@stOk_ite (st.current_chunk_tokens + estimateTokens s > (P.chunk_size : Int)) _ _ _
      (sentOverflow_stOk P text fid h) h)
  refine stOk_ite ?_ ?_
  · exact startUpdate_stOk _ h2
  · exact h2

theorem paraStep_stOk (P : ChunkerParams) (text fid : Str) :
    ∀ (st : ChunkState) (p : Str), StOk st → StOk (paraStep P text fid st p) := by
  intro st p h
  unfold paraStep
  dsimp only
  refine stOk_ite (foldl_inv (sentStep_stOk P text fid) _ _
    (stOk_ite (emitNoOverlap_stOk fid h) h)) (stOk_ite ?_ ?_)
  · have h2 := appendUnit_stOk p h
    refine stOk_ite ?_ ?_
    · exact startUpdate_stOk _ h2
    · exact h2
  · have h2 := appendUnit_stOk p
      (@stOk_ite ((!st.current_chunk.isEmpty) = true) _ _ _
        (overlapReset_stOk P text (emitChunk_stOk fid h)) h)
    refine stOk_ite ?_ ?_
    · exact startUpdate_stOk _ h2
    · exact h2

/-- Every chunk produced by `chunk_text` has a span matching its text and a
non-negative token count. -/
theorem chunkText_chunkOk (P : ChunkerParams) (text fid : Str) :
    ∀ c ∈ chunkText P text fid, ChunkOk c := by
  intro c hc
  unfold chunkText at hc
  have hst : StOk ((splitIntoParagraphs text).foldl (paraStep P text fid)
      ⟨[], [], 0, 0, 0, 0⟩) :=
    foldl_inv (paraStep_stOk P text fid) _ _ ⟨by simp, le_refl 0⟩
  dsimp only at hc
  split at hc
  · split at hc
    · simp only [List.mem_append, List.mem_singleton] at hc
      rcases hc with hc | rfl
      · exact hst.1 c hc
      · exact ⟨rfl, hst.2⟩
    · exact hst.1 c hc
  · exact hst.1 c hc

/-! ### Small texts produce no chunks under the default configuration -/

theorem sumEstNat_cons_split (done : List Str) (p : Str) (rest : List Str) :
    sumEstNat (done ++ p :: rest) = sumEstNat done + estNat p + sumEstNat rest := by
  simp [sumEstNat]
  ring

theorem tokens_cast_append (done : List Str) (p : Str) :
    (sumEstNat done : Int) + estimateTokens p = (sumEstNat (done ++ [p]) : Int) := by
  rw [estimateTokens_eq, sumEstNat_append]
  push_cast
  simp [sumEstNat]

/-- As long as every unit fits and the cumulative estimate stays below the
chunk size, the paragraph loop only accumulates: nothing is emitted. -/
theorem foldl_small (text fid : Str) (paras : List Str) :
    ∀ (done : List Str) (cs : Int) (ci : Nat) (lce : Int),
      sumEstNat (done ++ paras) ≤ 768 →
      ∃ cs2, paras.foldl (paraStep defaultChunker text fid)
          ⟨[], done, (sumEstNat done : Int), cs, ci, lce⟩
        = ⟨[], done ++ paras, (sumEstNat (done ++ paras) : Int), cs2, ci, lce⟩ := by
  induction paras with
  | nil =>
    intro done cs ci lce _
    exact ⟨cs, by simp⟩
  | cons p rest ih =>
    intro done cs ci lce h
    have hsum : sumEstNat done + estNat p + sumEstNat rest ≤ 768 := by
      rw [sumEstNat_cons_split] at h
      omega
    rw [List.foldl_cons]
    have h768 : ((defaultChunker.chunk_size : Nat) : Int) = (768 : Int) := by
      norm_num [defaultChunker]
    have htok := tokens_cast_append done p
    have hstep : paraStep defaultChunker text fid
        ⟨[], done, (sumEstNat done : Int), cs, ci, lce⟩ p
        = ⟨[], done ++ [p], (sumEstNat (done ++ [p]) : Int),
            (if (done ++ [p]).isEmpty = true ∨ cs = 0 then pyFind text p lce else cs),
            ci, lce⟩ := by
      unfold paraStep appendUnit
      dsimp only
      rw [if_neg ?hc1, if_pos ?hc2]
      case hc1 =>
        rw [estimateTokens_eq, h768]
        omega
      case hc2 =>
        rw [estimateTokens_eq, h768]
        omega
      rw [htok]
      split <;> rfl
    rw [hstep]
    have hsum2 : sumEstNat ((done ++ [p]) ++ rest) ≤ 768 := by
      rw [List.append_assoc]
      simp only [List.singleton_append]
      rw [sumEstNat_cons_split]
      omega
    obtain ⟨cs2, h2⟩ := ih (done ++ [p])
      (if (done ++ [p]).isEmpty = true ∨ cs = 0 then pyFind text p lce else cs) ci lce hsum2
    refine ⟨cs2, ?_⟩
    rw [h2]
    rw [List.append_assoc]
    simp only [List.singleton_append]

/-- Any text whose overall token estimate is below the default
`min_chunk_size` is chunked into nothing. -/
theorem chunkText_small_empty (text fid : Str)
    (h : estimateTokens text < 200) :
    chunkText defaultChunker text fid = [] := by
  have hest : estNat text < 200 := by
    rw [estimateTokens_eq] at h
    exact_mod_cast h
  have hJ : paraJ (splitIntoParagraphs text) ≤ text.length + 2 :=
    splitIntoParagraphs_paraJ text
  by_cases hnil : splitIntoParagraphs text = []
  · unfold chunkText
    rw [hnil]
    simp
  · have hk : 1 ≤ (splitIntoParagraphs text).length := List.length_pos.mpr hnil
    have hsl : sumLen (splitIntoParagraphs text) ≤ text.length := by
      have := paraJ_eq (splitIntoParagraphs text)
      omega
    have hse : sumEstNat (splitIntoParagraphs text) ≤ 199 := by
      have h1 := sumEstNat_le (splitIntoParagraphs text)
      have h2 : (3 * sumLen (splitIntoParagraphs text)) / 4 ≤ (3 * text.length) / 4 :=
        Nat.div_le_div_right (by omega)
      have h3 : (3 * text.length) / 4 = estNat text := rfl
      omega
    obtain ⟨cs2, hfold⟩ := foldl_small text fid (splitIntoParagraphs text) [] 0 0 0
      (by simpa using Nat.le_trans hse (by norm_num))
    norm_num [sumEstNat] at hfold
    unfold chunkText
    dsimp only
    rw [hfold]
    have hlen : (List.intercalate nl2 (splitIntoParagraphs text)).length ≤ text.length := by
      obtain ⟨a, l, hal⟩ := List.exists_cons_of_ne_nil hnil
      rw [hal] at hJ ⊢
      have := intercalate_nl2_length a l
      omega
    have hestt : ¬(estimateTokens (List.intercalate nl2 (splitIntoParagraphs text))
        ≥ ((defaultChunker.min_chunk_size : Nat) : Int)) := by
      rw [estimateTokens_eq]
      have : estNat (List.intercalate nl2 (splitIntoParagraphs text)) ≤ estNat text :=
        estNat_mono hlen
      have h200 : ((defaultChunker.min_chunk_size : Nat) : Int) = (200 : Int) := by
        norm_num [defaultChunker]
      rw [h200]
      omega
    rw [if_pos ?hne, if_neg hestt]
    case hne =>
      simp [hnil]

/-! ### Claims about the chunker -/

/-- C2: `chunk_text` emits the trailing buffer only when its estimated token
count reaches `min_chunk_size` (the emission test is lines 176-186 of
`chunker.py`, embedded verbatim in `chunkText`); in particular, with the
default configuration `chunk_size=768, overlap_size=120, min_chunk_size=200`,
any text whose overall token estimate is below 200 yields zero chunks. -/
theorem claim_C2_small_text_zero_chunks (text fid : Str)
    (h : estimateTokens text < 200) :
    chunkText defaultChunker text fid = [] :=
  chunkText_small_empty text fid h

theorem claim_C2_small_text_zero_chunks_witness :
    estimateTokens ( "hello world" : String).data < 200 ∧
    chunkText defaultChunker ( "hello world" : String).data ( "doc1" : String).data = [] :=
  ⟨by decide, claim_C2_small_text_zero_chunks _ _ (by decide)⟩

/-- C3 counterexample: `token_count` is not a function of the chunk's `text`.
Chunking `"cdefg\n\nab\n\ncdefg\n\nhi"` with `TextChunker(4, 7, 0)` emits a
second chunk whose text is `"ab\n\ncdefg\n\ncdefg"` with `token_count = 9`
(the sum of the estimates of an overlap window containing a blank line and a
paragraph), while chunking the text `"ab\n\ncdefg\n\ncdefg"` itself with
`TextChunker(768, 120, 0)` emits a single chunk with the same text but
`token_count = 7`; neither equals `int(len(text)*0.75) = 12`. -/
theorem claim_C3_counterexample :
    ((chunkText ⟨4, 7, 0⟩ ( "cdefg\n\nab\n\ncdefg\n\nhi" : String).data
        ( "f" : String).data).map ChunkDict.text)[1]? =
      ((chunkText ⟨768, 120, 0⟩ ( "ab\n\ncdefg\n\ncdefg" : String).data
        ( "g" : String).data).map ChunkDict.text)[0]? ∧
    ((chunkText ⟨4, 7, 0⟩ ( "cdefg\n\nab\n\ncdefg\n\nhi" : String).data
        ( "f" : String).data).map ChunkDict.token_count)[1]? = some 9 ∧
    ((chunkText ⟨768, 120, 0⟩ ( "ab\n\ncdefg\n\ncdefg" : String).data
        ( "g" : String).data).map ChunkDict.token_count)[0]? = some 7 := by
  decide

/-- C3 (amended): the `token_count` of every chunk emitted by `chunk_text`
is non-negative; it is the sum of the token estimates of the units
accumulated into the buffer, which is not in general determined by the
chunk's final text (see the counterexample). -/
theorem claim_C3_token_count_nonneg (P : ChunkerParams) (text fid : Str) :
    ∀ c ∈ chunkText P text fid, 0 ≤ c.token_count :=
  fun c hc => (chunkText_chunkOk P text fid c hc).2

theorem claim_C3_token_count_nonneg_witness :
    (∃ c ∈ chunkText ⟨768, 120, 0⟩ ( "cd" : String).data ( "g" : String).data, True) ∧
    ∀ c ∈ chunkText ⟨768, 120, 0⟩ ( "cd" : String).data ( "g" : String).data,
      0 ≤ c.token_count :=
  ⟨⟨⟨( "g_chunk_0" : String).data, ( "g" : String).data, 0, ( "cd" : String).data,
      0, 2, 1⟩, by decide, trivial⟩,
    claim_C3_token_count_nonneg ⟨768, 120, 0⟩ _ _⟩

/-- C10: for every emitted chunk, `end_char - start_char` equals the length
of the chunk's `text`, for every input and every parameter setting. -/
theorem claim_C10_span_width_matches_text (P : ChunkerParams) (text fid : Str) :
    ∀ c ∈ chunkText P text fid, c.end_char - c.start_char = (c.text.length : Int) := by
  intro c hc
  have h := (chunkText_chunkOk P text fid c hc).1
  omega

theorem claim_C10_span_width_matches_text_witness :
    (⟨( "f_chunk_0" : String).data, ( "f" : String).data, 0, ( "ab" : String).data,
        0, 2, 1⟩ : ChunkDict) ∈
      chunkText ⟨768, 120, 0⟩ ( "ab" : String).data ( "f" : String).data ∧
    (⟨( "f_chunk_0" : String).data, ( "f" : String).data, 0, ( "ab" : String).data,
        0, 2, 1⟩ : ChunkDict).end_char -
      (⟨( "f_chunk_0" : String).data, ( "f" : String).data, 0, ( "ab" : String).data,
        0, 2, 1⟩ : ChunkDict).start_char =
      ((⟨( "f_chunk_0" : String).data, ( "f" : String).data, 0, ( "ab" : String).data,
        0, 2, 1⟩ : ChunkDict).text.length : Int) :=
  ⟨by decide, claim_C10_span_width_matches_text ⟨768, 120, 0⟩ ( "ab" : String).data
    ( "f" : String).data _ (by decide)⟩

/-! ### FAISSVectorStore (`core/vector_store.py`)

Vectors are embedded as exact rational rows (float32 rounding is out of
scope); a numpy 2-D array is a rectangular matrix.  The FAISS index of a
store is the list of stored rows (`None` before `build_index`), and
`chunk_ids` is the parallel identifier list. -/

/-- A numpy 2-D float array: rectangular rows of a common width
(`arr.shape == (rows.length, width)`). -/
structure NpMatrix where
  rows : List (List ℚ)
  width : Nat
  rect : ∀ r ∈ rows, r.length = width

/-- In-memory state of `FAISSVectorStore`. -/
structure FAISSVectorStore where
  embedding_dim : Nat
  index : Option (List (List ℚ))
  chunk_ids : List Str

/-- `FAISSVectorStore.__init__(embedding_dim)`. -/
def newVectorStore (embedding_dim : Nat) : FAISSVectorStore :=
  { embedding_dim := embedding_dim, index := none, chunk_ids := [] }

/-- `FAISSVectorStore.build_index`: validates the pairing and the vector
width, then replaces the index (a fresh `IndexFlatL2` filled with exactly
the given vectors) and the identifier list (a copy of the argument). -/
def build_index (s : FAISSVectorStore) (embeddings : NpMatrix)
    (chunk_ids : List Str) : Except String FAISSVectorStore :=
  if embeddings.rows.length ≠ chunk_ids.length then
    .error "embeddings和chunk_ids长度不匹配"
  else if embeddings.width ≠ s.embedding_dim then
    .error ( "embedding维度不匹配: 期望" ++ toString s.embedding_dim ++
      ", 实际" ++ toString embeddings.width)
  else
    .ok { s with index := some embeddings.rows, chunk_ids := chunk_ids }

/-- `FAISSVectorStore.get_total_vectors`: `index.ntotal`, or 0 when the
index was never built. -/
def get_total_vectors (s : FAISSVectorStore) : Nat :=
  match s.index with
  | none => 0
  | some v => v.length

/-- `FAISSVectorStore.load`: the two artifacts are modelled as their
already-deserialized contents (`faiss.read_index` and `pickle.load` are
I/O).  Both assignments are unconditional — the function performs no
cross-artifact validation whatsoever. -/
def loadStore (s : FAISSVectorStore) (indexArtifact : List (List ℚ))
    (idArtifact : List Str) : FAISSVectorStore :=
  { s with index := some indexArtifact, chunk_ids := idArtifact }

/-- C1 counterexample: loading a one-vector index artifact together with a
two-identifier list completes normally (no `CorruptIndex`, no error of any
kind) and leaves the in-memory identifier-list length (2) different from
the loaded vector count (1). -/
theorem claim_C1_counterexample :
    (loadStore (newVectorStore 4) [[1, 2, 3, 4]]
      [( "a" : String).data, ( "b" : String).data]).chunk_ids.length = 2 ∧
    get_total_vectors (loadStore (newVectorStore 4) [[1, 2, 3, 4]]
      [( "a" : String).data, ( "b" : String).data]) = 1 := by
  constructor <;> rfl

/-- C1 (amended): `load` restores both artifacts unconditionally — the
in-memory index becomes exactly the vector artifact and the identifier list
becomes exactly the id-list artifact, with no length validation, so a
mismatched pair loads without error and leaves the lengths unequal. -/
theorem claim_C1_load_unvalidated (s : FAISSVectorStore)
    (v : List (List ℚ)) (ids : List Str) :
    (loadStore s v ids).index = some v ∧ (loadStore s v ids).chunk_ids = ids ∧
    get_total_vectors (loadStore s v ids) = v.length ∧
    (loadStore s v ids).chunk_ids.length = ids.length :=
  ⟨rfl, rfl, rfl, rfl⟩

/-- C8: `build_index` fails whenever the vector count differs from the
identifier count or the vector width differs from the configured embedding
dimension; when it succeeds, the resulting store holds exactly the given
vectors positionally paired with the given identifiers (all previous
content replaced). -/
theorem claim_C8_build_validates_and_replaces (s : FAISSVectorStore)
    (emb : NpMatrix) (ids : List Str) :
    (emb.rows.length ≠ ids.length ∨ emb.width ≠ s.embedding_dim →
      ∃ msg, build_index s emb ids = .error msg) ∧
    (∀ s2, build_index s emb ids = .ok s2 →
      s2.index = some emb.rows ∧ s2.chunk_ids = ids ∧
      s2.embedding_dim = s.embedding_dim ∧
      emb.rows.length = ids.length ∧ emb.width = s.embedding_dim) := by
  constructor
  · intro h
    unfold build_index
    rcases Decidable.em (emb.rows.length = ids.length) with hl | hl
    · rcases h with h | h
      · exact absurd hl h
      · rw [if_neg (by omega)]
        rw [if_pos h]
        exact ⟨_, rfl⟩
    · rw [if_pos hl]
      exact ⟨_, rfl⟩
  · intro s2 h
    unfold build_index at h
    split at h
    · exact absurd h (by simp)
    · split at h
      · exact absurd h (by simp)
      · rename_i h1 h2
        simp only [Except.ok.injEq] at h
        subst h
        exact ⟨rfl, rfl, rfl, by omega, by omega⟩

theorem claim_C8_build_validates_and_replaces_witness :
    ((⟨[[1, 2]], 2, by simp⟩ : NpMatrix).rows.length ≠
        ([] : List Str).length ∨ (2 : Nat) ≠ 2 →
      ∃ msg, build_index (newVectorStore 2) ⟨[[1, 2]], 2, by simp⟩ [] = .error msg) ∧
    (∀ s2, build_index (newVectorStore 2) ⟨[[1, 2]], 2, by simp⟩ [] = .ok s2 →
      s2.index = some (⟨[[1, 2]], 2, by simp⟩ : NpMatrix).rows ∧
      s2.chunk_ids = [] ∧ s2.embedding_dim = (newVectorStore 2).embedding_dim ∧
      (⟨[[1, 2]], 2, by simp⟩ : NpMatrix).rows.length = ([] : List Str).length ∧
      (⟨[[1, 2]], 2, by simp⟩ : NpMatrix).width = (newVectorStore 2).embedding_dim) :=
  claim_C8_build_validates_and_replaces (newVectorStore 2) ⟨[[1, 2]], 2, by simp⟩ []

/-! ### BGEEmbedder (`core/embedder.py`)

The tokenizer/model/mean-pooling/normalization pipeline applied to one text
is an external collaborator, supplied as the function `encodeOne` (second
argument: the `normalize` flag).  `encode` adds only the batching loop
around it (`np.vstack` of per-batch results), and `encode_query` prepends
the fixed BGE instruction. -/

/-- The batching loop `for i in range(0, len(texts), batch_size)`; the fuel
is the list length, which bounds the number of iterations for any positive
batch size. -/
def pyBatchesGo (bs : Nat) : Nat → List α → List (List α)
  | 0, _ => []
  | _ + 1, [] => []
  | fuel + 1, l@(_ :: _) => l.take bs :: pyBatchesGo bs fuel (l.drop bs)

/-- Slices `texts[i:i+batch_size]` for `i = 0, bs, 2·bs, ...`. -/
def pyBatches (bs : Nat) (l : List α) : List (List α) :=
  pyBatchesGo bs l.length l

/-- State of `BGEEmbedder`: the external per-text embedding capability. -/
structure BGEEmbedder where
  encodeOne : String → Bool → List ℚ

/-- `BGEEmbedder.encode` (default `batch_size=32`): tokenize and embed each
batch, stack all batch results. -/
def encode (e : BGEEmbedder) (texts : List String) (normalize : Bool) : List (List ℚ) :=
  (pyBatches 32 texts).flatMap (fun b => b.map (fun t => e.encodeOne t normalize))

/-- The fixed BGE query instruction of `encode_query`. -/
def bgeInstruction : String := "为这个句子生成表示以用于检索相关文章："

/-- `BGEEmbedder.encode_query`: encode the single string
`instruction + query` (a one-element batch, shape `(1, dim)`). -/
def encode_query (e : BGEEmbedder) (query : String) (normalize : Bool) : List (List ℚ) :=
  encode e [bgeInstruction ++ query] normalize

theorem pyBatchesGo_flatMap (bs : Nat) (f : α → β) (hbs : 1 ≤ bs) :
    ∀ (fuel : Nat) (l : List α), l.length ≤ fuel →
      (pyBatchesGo bs fuel l).flatMap (fun b => b.map f) = l.map f
  | 0, l, h => by
    have : l = [] := List.eq_nil_of_length_eq_zero (by omega)
    subst this
    rfl
  | fuel + 1, [], _ => rfl
  | fuel + 1, a :: l, h => by
    have ih := pyBatchesGo_flatMap bs f hbs fuel ((a :: l).drop bs)
      (by simp only [List.length_drop, List.length_cons] at *; omega)
    simp only [pyBatchesGo, List.flatMap_cons, ih]
    rw [← List.map_append, List.take_append_drop]

/-- Batching is invisible: `encode` maps the per-text pipeline over the
texts verbatim. -/
theorem encode_eq_map (e : BGEEmbedder) (texts : List String) (normalize : Bool) :
    encode e texts normalize = texts.map (fun t => e.encodeOne t normalize) :=
  pyBatchesGo_flatMap 32 _ (by norm_num) texts.length texts (le_refl _)

/-- C9: the asymmetric embedding contract.  `encode_query q` produces
exactly the embedding of the instruction-prefixed text
`"为这个句子生成表示以用于检索相关文章：" + q`, while `encode` applied to
any list of texts (the chunk-indexing path) embeds each text verbatim with
no prefix added. -/
theorem claim_C9_asymmetric_embedding (e : BGEEmbedder) (q : String)
    (normalize : Bool) (texts : List String) (normalize2 : Bool) :
    encode_query e q normalize = [e.encodeOne (bgeInstruction ++ q) normalize] ∧
    encode e texts normalize2 = texts.map (fun t => e.encodeOne t normalize2) := by
  constructor
  · rw [encode_query, encode_eq_map]
    rfl
  · exact encode_eq_map e texts normalize2

/-! ### ChunkDatabase and Retriever (`core/database.py`, `core/retriever.py`)

The SQLite `chunks` table is a list of rows whose `chunk_id` is the primary
key; a row type is the 7-column record selected by every query, i.e.
`ChunkDict`.  `get_chunks_by_ids` models `SELECT ... WHERE chunk_id IN (...)`:
each stored row whose key occurs in the requested list is returned exactly
once; SQLite leaves the row order unspecified, modelled here as table order
(the retriever re-sorts, and the proved properties do not depend on it). -/

/-- Decidable equality for `Except`, used to evaluate fallible operations
on concrete inputs. -/
instance {e a : Type _} [DecidableEq e] [DecidableEq a] : DecidableEq (Except e a) :=
  fun x y =>
  match x, y with
  | .ok v, .ok w => if h : v = w then isTrue (by rw [h]) else isFalse (by simp [h])
  | .error v, .error w => if h : v = w then isTrue (by rw [h]) else isFalse (by simp [h])
  | .ok _, .error _ => isFalse (by simp)
  | .error _, .ok _ => isFalse (by simp)

/-- `ChunkDatabase.get_chunks_by_ids`. -/
def get_chunks_by_ids (db : List ChunkDict) (chunk_ids : List Str) : List ChunkDict :=
  if chunk_ids.isEmpty then []
  else db.filter (fun r => chunk_ids.contains r.chunk_id)

/-- Executable rational addition (`Rat.add` is irreducible by design in the
library; `mkRat` of the cross-multiplied parts is the same value and
kernel-reduces). -/
def qAdd (a b : ℚ) : ℚ := mkRat (a.num * b.den + b.num * a.den) (a.den * b.den)

/-- Executable rational subtraction. -/
def qSub (a b : ℚ) : ℚ := mkRat (a.num * b.den - b.num * a.den) (a.den * b.den)

/-- Executable rational multiplication. -/
def qMul (a b : ℚ) : ℚ := mkRat (a.num * b.num) (a.den * b.den)

/-- Squared-Euclidean distance of `faiss.IndexFlatL2`, on exact rationals. -/
def sqL2 (a b : List ℚ) : ℚ :=
  (List.zipWith (fun x y => qMul (qSub x y) (qSub x y)) a b).foldl qAdd 0

/-- `FLT_MAX`, the float32 distance FAISS puts in unfilled result slots. -/
def fltMax : ℚ := 340282346638528859811704183484516925440

/-- FAISS result ranking: ascending distance, ties by ascending index (a
fixed choice of the unspecified FAISS tie order; the retriever re-sorts). -/
def rankLe (a b : Int × ℚ) : Prop :=
  a.2 < b.2 ∨ (a.2 = b.2 ∧ a.1 ≤ b.1)

instance : DecidableRel rankLe := fun a b => by unfold rankLe; infer_instance

/-- Python list indexing `l[i]` with negative wrap-around (used by
`chunk_ids[idx]` when FAISS pads unfilled slots with index `-1`). -/
def pyListGet (l : List Str) (i : Int) : Str :=
  if i < 0 then l.getD ((l.length : Int) + i).toNat [] else l.getD i.toNat []

/-- `FAISSVectorStore.search`: error when the index was never built;
otherwise run the flat search with `min(k, len(chunk_ids))` requested
results (FAISS fills slots beyond `ntotal` with index `-1` / `FLT_MAX`) and
keep `(chunk_ids[idx], distance)` for every slot index below
`len(chunk_ids)`. -/
def searchVS (s : FAISSVectorStore) (query_vector : List ℚ) (k : Nat) :
    Except String (List (Str × ℚ)) :=
  match s.index with
  | none => .error "索引未构建，请先调用build_index"
  | some vecs =>
    let kk := if k ≤ s.chunk_ids.length then k else s.chunk_ids.length
    let scored := ((List.range vecs.length).zip vecs).map
      (fun p => ((p.1 : Int), sqL2 query_vector p.2))
    let ranked := List.insertionSort rankLe scored
    let slots := ranked.take kk ++ List.replicate (kk - vecs.length) ((-1 : Int), fltMax)
    .ok (slots.filterMap (fun p =>
      if p.1 < (s.chunk_ids.length : Int) then some (pyListGet s.chunk_ids p.1, p.2)
      else none))

/-- A chunk dict hydrated by `Retriever.retrieve` with its `'distance'`
key; Python's `float('inf')` fallback is `⊤`. -/
structure HydChunk where
  chunk : ChunkDict
  distance : WithTop ℚ
deriving DecidableEq

/-- The sort key `lambda x: x.get('distance', float('inf'))`. -/
def distLe (a b : HydChunk) : Prop := a.distance ≤ b.distance

instance : DecidableRel distLe := fun a b => by unfold distLe; infer_instance

instance : IsTotal HydChunk distLe := ⟨fun a b => le_total a.distance b.distance⟩

instance : IsTrans HydChunk distLe := ⟨fun _ _ _ h1 h2 => le_trans h1 h2⟩

/-- The `distance_map` dict comprehension followed by `.get(chunk_id, inf)`:
on duplicate ids the later search result wins. -/
def distMapGet (sr : List (Str × ℚ)) (cid : Str) : WithTop ℚ :=
  match sr.reverse.lookup cid with
  | some d => (d : WithTop ℚ)
  | none => ⊤

/-- `Retriever.retrieve`: encode the query (asymmetric path, `normalize`
defaulting to true; `search` takes the single row of the `(1, dim)` query
array), search, hydrate the returned ids from the store, attach distances,
and re-sort ascending by distance (`list.sort` is a stable sort on this
key; insertion sort is one such stable sort). -/
def retrieve (s : FAISSVectorStore) (e : BGEEmbedder) (db : List ChunkDict)
    (query : String) (k : Nat) : Except String (List HydChunk) := do
  let qrows := encode_query e query true
  let sr ← searchVS s (qrows.headD []) k
  let chunk_ids := sr.map (fun p => p.1)
  let chunks := get_chunks_by_ids db chunk_ids
  let withD := chunks.map (fun c => HydChunk.mk c (distMapGet sr c.chunk_id))
  return List.insertionSort distLe withD

theorem get_chunks_by_ids_sublist (db : List ChunkDict) (ids : List Str) :
    List.Sublist (get_chunks_by_ids db ids) db := by
  unfold get_chunks_by_ids
  split
  · exact List.nil_sublist db
  · exact List.filter_sublist db

/-- C6: whenever `retrieve` returns, the returned list has pairwise-distinct
chunk ids (given the primary-key invariant of the `chunks` table), is sorted
non-decreasing by the attached distance, and silently omits every id with
no matching row in the store. -/
theorem claim_C6_retrieve_nodup_sorted_drops (s : FAISSVectorStore)
    (e : BGEEmbedder) (db : List ChunkDict) (query : String) (k : Nat)
    (l : List HydChunk) (hdb : (db.map ChunkDict.chunk_id).Nodup)
    (hok : retrieve s e db query k = .ok l) :
    (l.map (fun h => h.chunk.chunk_id)).Nodup ∧
    l.Pairwise distLe ∧
    ∀ cid : Str, cid ∉ db.map ChunkDict.chunk_id →
      cid ∉ l.map (fun h => h.chunk.chunk_id) := by
  unfold retrieve at hok
  dsimp only at hok
  cases hsr : searchVS s ((encode_query e query true).headD []) k with
  | error m => rw [hsr] at hok; exact absurd hok (by simp)
  | ok sr =>
    rw [hsr] at hok
    replace hok := Except.ok.inj hok
    subst hok
    set chunks := get_chunks_by_ids db (sr.map (fun p => p.1)) with hchunks
    set withD := chunks.map (fun c => HydChunk.mk c (distMapGet sr c.chunk_id))
      with hwithD
    have hperm : List.Perm (List.insertionSort distLe withD) withD :=
      List.perm_insertionSort distLe withD
    have hpermmap : List.Perm
        ((List.insertionSort distLe withD).map (fun h => h.chunk.chunk_id))
        (withD.map (fun h => h.chunk.chunk_id)) := hperm.map _
    have hmapeq : withD.map (fun h => h.chunk.chunk_id) =
        chunks.map ChunkDict.chunk_id := by
      rw [hwithD, List.map_map]
      rfl
    have hsub : List.Sublist (chunks.map ChunkDict.chunk_id)
        (db.map ChunkDict.chunk_id) :=
      (get_chunks_by_ids_sublist db _).map _
    refine ⟨?_, ?_, ?_⟩
    · exact hpermmap.nodup_iff.mpr (hmapeq ▸ hsub.nodup hdb)
    · exact List.sorted_insertionSort distLe withD
    · intro cid hcid hmem
      have : cid ∈ withD.map (fun h => h.chunk.chunk_id) := hpermmap.mem_iff.mp hmem
      rw [hmapeq] at this
      exact hcid (hsub.subset this)

def c6store : FAISSVectorStore :=
  ⟨1, some [[0], [1]], [( "a" : String).data, ( "c" : String).data]⟩

def c6emb : BGEEmbedder := ⟨fun _ _ => [0]⟩

def c6rowA : ChunkDict :=
  ⟨( "a" : String).data, ( "f" : String).data, 0, ( "t1" : String).data, 0, 2, 1⟩

def c6rowB : ChunkDict :=
  ⟨( "b" : String).data, ( "f" : String).data, 1, ( "t2" : String).data, 2, 4, 1⟩

def c6db : List ChunkDict := [c6rowA, c6rowB]

theorem claim_C6_retrieve_nodup_sorted_drops_witness :
    ((c6db.map ChunkDict.chunk_id).Nodup ∧
      retrieve c6store c6emb c6db "q" 5 = .ok [⟨c6rowA, ((0 : ℚ) : WithTop ℚ)⟩]) ∧
    (([⟨c6rowA, ((0 : ℚ) : WithTop ℚ)⟩] : List HydChunk).map
        (fun h => h.chunk.chunk_id)).Nodup ∧
    ([⟨c6rowA, ((0 : ℚ) : WithTop ℚ)⟩] : List HydChunk).Pairwise distLe ∧
    (∀ cid : Str, cid ∉ c6db.map ChunkDict.chunk_id →
      cid ∉ ([⟨c6rowA, ((0 : ℚ) : WithTop ℚ)⟩] : List HydChunk).map
        (fun h => h.chunk.chunk_id)) :=
  ⟨⟨by decide, by decide⟩,
    claim_C6_retrieve_nodup_sorted_drops c6store c6emb c6db "q" 5
      [⟨c6rowA, ((0 : ℚ) : WithTop ℚ)⟩] (by decide) (by decide)⟩

/-! ### call_llm_api and the summarization orchestrator (`tools/utils.py`)

One generation call is driven by an oracle `attemptsF : Nat → ApiAttempt`
giving the outcome the network would produce on each attempt (1-based, as
in `for attempt in range(1, max_retries + 1)`).  `requests` failures
(`RequestException`) are `transient`; any other exception is `fatal`.  The
loop's `time.sleep(1 * attempt)` calls are collected in `sleeps` and the
number of attempts actually performed in `attempts`. -/

/-- Outcome of one attempted POST to the generation API. -/
inductive ApiAttempt
  | ok (text : String)
  | transient (msg : String)
  | fatal (msg : String)
deriving DecidableEq

/-- How `call_llm_api` fails: a non-`RequestException` propagates
immediately (`fatal`); after the loop the last `RequestException` is
re-raised (`exhausted`); with `max_retries = 0` the loop never runs and
`raise last_exception` raises `None` (a `TypeError`, kept as its own
constructor for faithfulness). -/
inductive LlmError
  | fatal (msg : String)
  | exhausted (msg : String)
  | raiseNone
deriving DecidableEq

/-- Result of `call_llm_api` plus its observable retry trace. -/
structure LlmOutcome where
  result : Except LlmError String
  sleeps : List Nat
  attempts : Nat
deriving DecidableEq

def isTransient : ApiAttempt → Bool
  | .transient _ => true
  | _ => false

def attemptMsg : ApiAttempt → String
  | .ok t => t
  | .transient m => m
  | .fatal m => m

/-- The retry loop of `call_llm_api`, iterating over the remaining attempt
indices with the running `last_exception`. -/
def callLlmGo (attemptsF : Nat → ApiAttempt) (maxRetries : Nat) :
    List Nat → Option String → LlmOutcome
  | [], last =>
    match last with
    | some m => ⟨.error (.exhausted m), [], 0⟩
    | none => ⟨.error .raiseNone, [], 0⟩
  | a :: rest, _ =>
    match attemptsF a with
    | .ok t => ⟨.ok t, [], 1⟩
    | .transient m =>
      let r := callLlmGo attemptsF maxRetries rest (some m)
      ⟨r.result, (if a < maxRetries then [a] else []) ++ r.sleeps, r.attempts + 1⟩
    | .fatal m => ⟨.error (.fatal m), [], 1⟩

/-- `call_llm_api(generator, system_prompt, user_prompt, timeout, max_retries)`:
the prompts and timeout only parameterize the network call, which the
attempts oracle models. -/
def call_llm_api (attemptsF : Nat → ApiAttempt) (maxRetries : Nat) : LlmOutcome :=
  callLlmGo attemptsF maxRetries (List.range' 1 maxRetries) none

theorem callLlmGo_attempts_le (f : Nat → ApiAttempt) (mr : Nat) :
    ∀ (l : List Nat) (last : Option String),
      (callLlmGo f mr l last).attempts ≤ l.length := by
  intro l
  induction l with
  | nil => intro last; unfold callLlmGo; split <;> simp
  | cons a rest ih =>
    intro last
    unfold callLlmGo
    split
    · simp
    · rename_i m hm
      have h := ih (some m)
      simp only [List.length_cons]
      omega
    · simp

theorem callLlmGo_allTransient (f : Nat → ApiAttempt) (mr : Nat) :
    ∀ (l : List Nat) (b : Nat) (last : Option String),
      (∀ a ∈ l ++ [b], isTransient (f a) = true) →
      callLlmGo f mr (l ++ [b]) last =
        ⟨.error (.exhausted (attemptMsg (f b))),
          (l ++ [b]).filter (fun a => decide (a < mr)), (l ++ [b]).length⟩ := by
  intro l
  induction l with
  | nil =>
    intro b last h
    have hb := h b (by simp)
    unfold callLlmGo
    cases hfb : f b with
    | ok t => rw [hfb] at hb; simp [isTransient] at hb
    | fatal m => rw [hfb] at hb; simp [isTransient] at hb
    | transient m =>
      simp only [List.nil_append, List.filter_cons, List.filter_nil, List.length_cons,
        List.length_nil, hfb]
      unfold callLlmGo
      split <;> simp_all [attemptMsg]
  | cons a rest ih =>
    intro b last h
    have ha := h a (by simp)
    cases hfa : f a with
    | ok t => rw [hfa] at ha; simp [isTransient] at ha
    | fatal m => rw [hfa] at ha; simp [isTransient] at ha
    | transient m =>
      have hrec := ih b (some m) (fun x hx => h x (by simp at hx ⊢; tauto))
      simp only [List.cons_append]
      unfold callLlmGo
      rw [hfa]
      simp only [hrec, List.filter_cons, hfa, List.length_cons]
      split
      · simp_all
      · rename_i hge
        simp [hge]

theorem callLlmGo_fatal (f : Nat → ApiAttempt) (mr : Nat) :
    ∀ (l : List Nat) (b : Nat) (l2 : List Nat) (last : Option String) (m : String),
      (∀ a ∈ l, isTransient (f a) = true) → f b = .fatal m →
      callLlmGo f mr (l ++ b :: l2) last =
        ⟨.error (.fatal m), l.filter (fun a => decide (a < mr)), l.length + 1⟩ := by
  intro l
  induction l with
  | nil =>
    intro b l2 last m _ hfb
    simp only [List.nil_append, List.filter_nil, List.length_nil]
    unfold callLlmGo
    rw [hfb]
  | cons a rest ih =>
    intro b l2 last m h hfb
    have ha := h a (by simp)
    cases hfa : f a with
    | ok t => rw [hfa] at ha; simp [isTransient] at ha
    | fatal m2 => rw [hfa] at ha; simp [isTransient] at ha
    | transient m2 =>
      have hrec := ih b l2 (some m2) m (fun x hx => h x (by simp [hx])) hfb
      simp only [List.cons_append]
      unfold callLlmGo
      rw [hfa]
      simp only [hrec, List.filter_cons, hfa, List.length_cons]
      split
      · simp_all
      · rename_i hge
        simp [hge]

theorem range'_filter_lt (n mr : Nat) (h : n < mr) :
    (List.range' 1 n).filter (fun a => decide (a < mr)) = List.range' 1 n := by
  apply List.filter_eq_self.mpr
  intro a ha
  obtain ⟨i, hi, rfl⟩ := List.mem_range'.mp ha
  simp
  omega

theorem range'_decomp (i mr : Nat) (h1 : 1 ≤ i) (h2 : i ≤ mr) :
    List.range' 1 mr = List.range' 1 (i - 1) ++ i :: List.range' (i + 1) (mr - i) := by
  have ha := List.range'_append_1 1 (i - 1) (mr - (i - 1))
  have hb : List.range' (1 + (i - 1)) (mr - (i - 1)) =
      i :: List.range' (i + 1) (mr - i) := by
    have h3 : 1 + (i - 1) = i := by omega
    have h4 : mr - (i - 1) = (mr - i) + 1 := by omega
    rw [h3, h4, List.range'_succ]
  rw [hb] at ha
  have h5 : (mr - (i - 1)) + (i - 1) = mr := by omega
  rw [h5] at ha
  exact ha.symm

/-- A non-transient failure at attempt `i`, after `i-1` transient ones,
propagates immediately with waits `1, ..., i-1`. -/
theorem call_llm_api_fatal (f : Nat → ApiAttempt) (mr i : Nat) (m : String)
    (h1 : 1 ≤ i) (h2 : i ≤ mr)
    (htr : ∀ j ∈ List.range' 1 (i - 1), isTransient (f j) = true)
    (hfat : f i = .fatal m) :
    call_llm_api f mr = ⟨.error (.fatal m), List.range' 1 (i - 1), i⟩ := by
  rw [call_llm_api, range'_decomp i mr h1 h2]
  rw [callLlmGo_fatal f mr _ i _ none m htr hfat]
  rw [range'_filter_lt (i - 1) mr (by omega), List.length_range']
  simp only [LlmOutcome.mk.injEq]
  refine ⟨trivial, trivial, by omega⟩

/-- `max_retries` consecutive transient failures exhaust the loop and
re-raise the last error, with waits `1, ..., max_retries - 1`. -/
theorem call_llm_api_allTransient (f : Nat → ApiAttempt) (mr : Nat)
    (hmr : 1 ≤ mr) (htr : ∀ j ∈ List.range' 1 mr, isTransient (f j) = true) :
    call_llm_api f mr =
      ⟨.error (.exhausted (attemptMsg (f mr))), List.range' 1 (mr - 1), mr⟩ := by
  have hdec : List.range' 1 mr = List.range' 1 (mr - 1) ++ [mr] := by
    have h := range'_decomp mr mr hmr (le_refl mr)
    simpa using h
  rw [call_llm_api, hdec]
  rw [callLlmGo_allTransient f mr (List.range' 1 (mr - 1)) mr none
    (by rw [← hdec]; exact htr)]
  simp only [List.filter_append, List.length_append, List.length_range',
    List.length_cons, List.length_nil, LlmOutcome.mk.injEq]
  refine ⟨trivial, ?_, by omega⟩
  rw [range'_filter_lt (mr - 1) mr (by omega)]
  simp

/-- C5: the retry policy of `call_llm_api`.  (1) At most `max_retries`
attempts are ever performed.  (2) A non-transient failure at attempt `i`
(after `i-1` transient ones) propagates immediately: the error is exactly
that failure, exactly `i` attempts were made, and the waits so far were
`1, 2, ..., i-1` seconds (linear backoff, `attempt` seconds after failed
attempt `attempt`; no wait after the last).  (3) `max_retries` consecutive
transient failures make exactly `max_retries` attempts, wait
`1, ..., max_retries-1` seconds between consecutive attempts, and re-raise
the last transient error. -/
theorem claim_C5_retry_policy (f : Nat → ApiAttempt) (mr : Nat) :
    (call_llm_api f mr).attempts ≤ mr ∧
    (∀ i m, 1 ≤ i → i ≤ mr →
      (∀ j ∈ List.range' 1 (i - 1), isTransient (f j) = true) →
      f i = .fatal m →
      call_llm_api f mr = ⟨.error (.fatal m), List.range' 1 (i - 1), i⟩) ∧
    (1 ≤ mr →
      (∀ j ∈ List.range' 1 mr, isTransient (f j) = true) →
      call_llm_api f mr =
        ⟨.error (.exhausted (attemptMsg (f mr))), List.range' 1 (mr - 1), mr⟩) := by
  refine ⟨?_, ?_, ?_⟩
  · have h := callLlmGo_attempts_le f mr (List.range' 1 mr) none
    simpa [call_llm_api] using h
  · intro i m h1 h2 htr hfat
    exact call_llm_api_fatal f mr i m h1 h2 htr hfat
  · intro hmr htr
    exact call_llm_api_allTransient f mr hmr htr

/-- The oracle producing only transient failures, for the C5 witness. -/
def c5f : Nat → ApiAttempt := fun _ => .transient "boom"

theorem claim_C5_retry_policy_witness :
    (1 ≤ 3 ∧ ∀ j ∈ List.range' 1 3, isTransient (c5f j) = true) ∧
    call_llm_api c5f 3 = ⟨.error (.exhausted "boom"), [1, 2], 3⟩ :=
  ⟨⟨by norm_num, by decide⟩,
    (claim_C5_retry_policy c5f 3).2.2 (by norm_num) (by decide)⟩

/-- `str(e)` of the exception value raised out of `call_llm_api`. -/
def errString : LlmError → String
  | .fatal m => m
  | .exhausted m => m
  | .raiseNone => "None"

/-- `generate_single_literature_summary`: the prompt builders only shape
the API-call inputs (absorbed into the attempts oracle) and the wall-clock
`generation_time` is not modelled.  Any exception is caught and replaced by
the inline error text `"生成总结时出错: " + str(e)`. -/
def generate_single_literature_summary (file_id _fulltext _question : String)
    (attemptsF : Nat → ApiAttempt) (maxRetries : Nat) : String × String :=
  match (call_llm_api attemptsF maxRetries).result with
  | .ok summary => (file_id, summary)
  | .error e => (file_id, "生成总结时出错: " ++ errString e)

/-- One element of the list returned by
`generate_literature_summaries_parallel` (the `generation_time` string is
wall-clock and not modelled). -/
structure SummaryEntry where
  file_id : String
  summary : String
deriving DecidableEq

/-- `generate_literature_summaries_parallel`: read every fulltext (skipping
unreadable documents), then fan out one `generate_single_literature_summary`
task per document.  `as_completed` collects exactly one result per submitted
task in a scheduler-dependent order, modelled as submission order (the
claimed properties are order-independent); the `except` around
`future.result()` is unreachable because the task function catches every
exception itself. -/
def generate_literature_summaries_parallel (file_ids : List String)
    (question : String) (read_fulltext : String → String)
    (attemptsFor : String → Nat → ApiAttempt) (maxRetries : Nat) :
    List SummaryEntry :=
  let literature_data := file_ids.filterMap (fun fid =>
    let ft := read_fulltext fid
    if ft ≠ "" then some (fid, ft) else none)
  if literature_data.isEmpty then []
  else literature_data.map (fun p =>
    let r := generate_single_literature_summary p.1 p.2 question
      (attemptsFor p.1) maxRetries
    ⟨r.1, r.2⟩)

theorem generate_single_fst (file_id fulltext question : String)
    (attemptsF : Nat → ApiAttempt) (maxRetries : Nat) :
    (generate_single_literature_summary file_id fulltext question
      attemptsF maxRetries).1 = file_id := by
  unfold generate_single_literature_summary
  split <;> rfl

/-- C4: a document whose generation call is transiently failing on every
one of the `max_retries` attempts does not abort the batch and nothing is
raised past the orchestrator (the model is a total function): that document
yields a summary entry whose text is the human-readable error message
`"生成总结时出错: " + str(last error)`, and every other readable document
still yields its own entry in the returned batch. -/
theorem claim_C4_failure_absorbed (file_ids : List String) (question : String)
    (read_fulltext : String → String) (attemptsFor : String → Nat → ApiAttempt)
    (mr : Nat) (fid : String)
    (hmem : fid ∈ file_ids) (hft : read_fulltext fid ≠ "") (hmr : 1 ≤ mr)
    (hfail : ∀ j ∈ List.range' 1 mr, isTransient (attemptsFor fid j) = true) :
    (∃ e ∈ generate_literature_summaries_parallel file_ids question
        read_fulltext attemptsFor mr,
      e.file_id = fid ∧
      e.summary = "生成总结时出错: " ++ attemptMsg (attemptsFor fid mr)) ∧
    (∀ fid2 ∈ file_ids, read_fulltext fid2 ≠ "" →
      ∃ e ∈ generate_literature_summaries_parallel file_ids question
          read_fulltext attemptsFor mr,
        e.file_id = fid2) := by
  have hmemld : ∀ g ∈ file_ids, read_fulltext g ≠ "" →
      (g, read_fulltext g) ∈ file_ids.filterMap (fun fid2 =>
        let ft := read_fulltext fid2
        if ft ≠ "" then some (fid2, ft) else none) := by
    intro g hg hgft
    exact List.mem_filterMap.mpr ⟨g, hg, by simp [hgft]⟩
  have hne : ¬(file_ids.filterMap (fun fid2 =>
      let ft := read_fulltext fid2
      if ft ≠ "" then some (fid2, ft) else none)).isEmpty = true := by
    rw [List.isEmpty_iff]
    exact List.ne_nil_of_mem (hmemld fid hmem hft)
  constructor
  · refine ⟨⟨fid, "生成总结时出错: " ++ attemptMsg (attemptsFor fid mr)⟩, ?_, rfl, rfl⟩
    unfold generate_literature_summaries_parallel
    rw [if_neg hne]
    refine List.mem_map.mpr ⟨(fid, read_fulltext fid), hmemld fid hmem hft, ?_⟩
    have hres := call_llm_api_allTransient (attemptsFor fid) mr hmr hfail
    unfold generate_single_literature_summary
    rw [hres]
    rfl
  · intro fid2 hg hgft
    refine ⟨⟨fid2, (generate_single_literature_summary fid2 (read_fulltext fid2)
      question (attemptsFor fid2) mr).2⟩, ?_, rfl⟩
    unfold generate_literature_summaries_parallel
    rw [if_neg hne]
    refine List.mem_map.mpr ⟨(fid2, read_fulltext fid2), hmemld fid2 hg hgft, ?_⟩
    have h1 := generate_single_fst fid2 (read_fulltext fid2) question
      (attemptsFor fid2) mr
    show SummaryEntry.mk
      (generate_single_literature_summary fid2 (read_fulltext fid2) question
        (attemptsFor fid2) mr).1
      (generate_single_literature_summary fid2 (read_fulltext fid2) question
        (attemptsFor fid2) mr).2 = _
    rw [h1]

/-- Fulltext oracle for the C4 witness. -/
def c4read : String → String := fun f => if f = "d1" then "t one" else "t two"

/-- Attempts oracle for the C4 witness: document d1 always fails with a
network error, every other document succeeds immediately. -/
def c4att : String → Nat → ApiAttempt :=
  fun f _ => if f = "d1" then .transient "netfail" else .ok "good"

theorem claim_C4_failure_absorbed_witness :
    (( "d1" : String) ∈ [( "d1" : String), "d2"] ∧ c4read "d1" ≠ "" ∧
      (1 : Nat) ≤ 3 ∧ ∀ j ∈ List.range' 1 3, isTransient (c4att "d1" j) = true) ∧
    (∃ e ∈ generate_literature_summaries_parallel [( "d1" : String), "d2"]
        "q" c4read c4att 3,
      e.file_id = "d1" ∧
      e.summary = "生成总结时出错: " ++ attemptMsg (c4att "d1" 3)) ∧
    (∀ fid2 ∈ [( "d1" : String), "d2"], c4read fid2 ≠ "" →
      ∃ e ∈ generate_literature_summaries_parallel [( "d1" : String), "d2"]
          "q" c4read c4att 3,
        e.file_id = fid2) :=
  ⟨⟨by decide, by decide, by norm_num, by decide⟩,
    claim_C4_failure_absorbed [( "d1" : String), "d2"] "q" c4read c4att 3 "d1"
      (by decide) (by decide) (by norm_num) (by decide)⟩

/-! ### StructuredSearchSystem.query (`domains/chembrain/server/server.py`)

Parsed JSON values are `PyJson`; a relational row / JSON object payload is
a `PyDict` (association list with unique keys as produced by a JSON
parser); `query_data_dict` / `metadata_dict` are `PyMap`s with Python's
insertion-ordered replace-on-assignment semantics.  The LLM translation,
the relational store, the fulltext provider, the metadata re-query and the
pure string-formatting `_generate_metadata_summary` are oracles in
`ChembrainEnv`. -/

/-- A parsed JSON value. -/
inductive PyJson where
  | obj (fields : List (String × PyJson))
  | arr (elems : List PyJson)
  | str (s : String)
  | num (n : Int)
  | boolean (b : Bool)
  | null

/-- JSON-object field access (`d.get(key)`); parsed objects have unique
keys, so the first match is the value. -/
def pyObjGet (fields : List (String × PyJson)) (key : String) : Option PyJson :=
  fields.lookup key

/-- Python truthiness of a JSON value. -/
def PyJson.truthy : PyJson → Bool
  | .obj fields => !fields.isEmpty
  | .arr l => !l.isEmpty
  | .str s => !(s = "")
  | .num n => !(n = 0)
  | .boolean b => b
  | .null => false

/-- `str(x)` as used in f-string interpolation, for scalar values
(container reprs abridged; the claims never inspect them). -/
def pyStr : PyJson → String
  | .str s => s
  | .num n => toString n
  | .boolean b => if b then "True" else "False"
  | .null => "None"
  | .obj _ => "\x7b...\x7d"
  | .arr _ => "[...]"

/-- A JSON object payload / relational row. -/
abbrev PyDict := List (String × PyJson)

/-- `query_data_dict` / `metadata_dict`: string key to row. -/
abbrev PyMap := List (String × PyDict)

/-- Python `d[k] = v`: replace in place if the key exists, else append. -/
def pyDictSet {α : Type _} (d : List (String × α)) (k : String) (v : α) :
    List (String × α) :=
  if (d.lookup k).isSome then d.map (fun kv => if kv.1 = k then (k, v) else kv)
  else d ++ [(k, v)]

/-- Python `d.update(new)`: assign every pair of `new` in order. -/
def pyMapUpdate {α : Type _} (d new : List (String × α)) : List (String × α) :=
  new.foldl (fun acc kv => pyDictSet acc kv.1 kv.2) d

/-- `{**a, **b}`: merged dict, `b` winning on key collision. -/
def pyDictMerge (a b : PyDict) : PyDict := pyMapUpdate a b

-- `StatusCode` (`common/constants.py`).
namespace StatusCode

def SUCCESS : Nat := 0

def NO_RESULTS : Nat := 1

def NO_LITERATURE : Nat := 2

def REPORT_FAILED : Nat := 3

def OTHER_ERROR : Nat := 4

end StatusCode

/-- The public `{summaries, code}` response shape. -/
structure QueryResult where
  summaries : List String
  code : Nat
deriving DecidableEq

/-- External collaborators of `StructuredSearchSystem.query`. -/
structure ChembrainEnv where
  convert : String → Option PyJson
  qdb : String → PyJson → List String × PyMap × PyMap
  readFull : String → String
  attemptsFor : String → Nat → ApiAttempt
  requery : List String → List PyDict
  metaSum : String → PyDict → String → String
  maxRetries : Nat

/-- `MAX_FULLTEXT_SUMMARIES` (`server.py` line 67). -/
def MAX_FULLTEXT_SUMMARIES : Nat := 20

/-- The per-table filters normalization (lines 436-448): a one-element list
becomes that element, a longer list becomes an implicit AND-composite, an
empty list becomes the empty condition. -/
def normalizeTableFilters : PyJson → PyJson
  | .arr l =>
    if l.length = 1 then l.headD .null
    else if l.length > 1 then
      .obj [("type", .num 2), ("groupOperator", .str "and"), ("sub", .arr l)]
    else .obj []
  | v => v

/-- The multi-table loop (lines 431-458): extend the DOI list, update the
two dicts table by table.  A non-object entry makes `.get` raise, which the
top-level `except` maps to `OTHER_ERROR` (`none` here).  A non-string
`table_name` value is interpolated by `pyStr` (DOI tables use strings). -/
def runTables (qdb : String → PyJson → List String × PyMap × PyMap) :
    List PyJson → Option (List String × PyMap × PyMap)
  | [] => some ([], [], [])
  | tq :: rest =>
    match tq with
    | .obj fields =>
      let table_name :=
        match pyObjGet fields "table_name" with
        | some v => pyStr v
        | none => "polym00"
      let table_filters := (pyObjGet fields "filters").getD (.obj [])
      let r := qdb table_name (normalizeTableFilters table_filters)
      match runTables qdb rest with
      | some (dois2, qd2, md2) =>
        some (r.1 ++ dois2, pyMapUpdate r.2.1 qd2, pyMapUpdate r.2.2 md2)
      | none => none
    | _ => none

/-- `list(set(all_dois))`: Python's set order is arbitrary; modelled as
first-occurrence dedup (the code only relies on membership and emptiness;
the order in which DOIs reach the fulltext stage is unspecified). -/
def pySetDedup (l : List String) : List String :=
  l.foldl (fun acc x => if acc.contains x then acc else acc ++ [x]) []

/-- Steps 1-2 of `query` (lines 405-469): translate, reject falsy filters,
then either the multi-table loop with DOI dedup or the legacy single-table
query.  `none` is every path the method maps to `OTHER_ERROR`. -/
def queryCandidates (env : ChembrainEnv) (q : String) :
    Option (List String × PyMap × PyMap) :=
  match env.convert q with
  | none => none
  | some filters =>
    if !filters.truthy then none
    else
      match filters with
      | .obj fields =>
        match pyObjGet fields "tables" with
        | some (.arr tqs) =>
          (runTables env.qdb tqs).map (fun r => (pySetDedup r.1, r.2.1, r.2.2))
        | some _ => none
        | none =>
          let f2 := (pyObjGet fields "filters").getD filters
          some (env.qdb "polym00" f2)
      | _ => some (env.qdb "polym00" filters)

/-- Step 5 (lines 549-594): re-query metadata for DOIs missing from
`query_data_dict` (a row is merged only when its `doi` is a non-empty
string not already present; both dicts receive it), then emit one
metadata digest per fulltext-less DOI, skipping empty digests. -/
def metadataSummariesFor (env : ChembrainEnv) (q : String)
    (dois_without : List String) (qd md : PyMap) : List String :=
  let missing := dois_without.filter (fun d => ((qd.lookup d).isSome : Bool) = false)
  let qdmd :=
    if !missing.isEmpty then
      (env.requery (missing.take 100)).foldl (fun acc paper =>
        match pyObjGet paper "doi" with
        | some (.str d) =>
          if d ≠ "" ∧ (acc.1.lookup d).isNone then
            (pyDictSet acc.1 d paper, pyDictSet acc.2 d paper)
          else acc
        | _ => acc) (qd, md)
    else (qd, md)
  dois_without.filterMap (fun doi =>
    let query_data := (qdmd.1.lookup doi).getD []
    let paper_metadata := (qdmd.2.lookup doi).getD []
    let combined := pyDictMerge query_data paper_metadata
    let s := env.metaSum doi combined q
    if s ≠ "" then some s else none)

/-- Step 6 (lines 596-608): one digest per epoxy entry, identified by
`formulation_id` when truthy, else `_id` (default: the synthetic key). -/
def epoxySummaries (env : ChembrainEnv) (q : String) (epoxy : PyMap) :
    List String :=
  epoxy.filterMap (fun kv =>
    let second :=
      match pyObjGet kv.2 "_id" with
      | some w => pyStr w
      | none => kv.1
    let idStr :=
      match pyObjGet kv.2 "formulation_id" with
      | some v => if v.truthy then pyStr v else second
      | none => second
    let s := env.metaSum ("环氧表条目_" ++ idStr) kv.2 q
    if s ≠ "" then some s else none)

/-- `StructuredSearchSystem.query` (lines 392-631): candidates, the
`NO_RESULTS` early return, fulltext partition, truncation to
`MAX_FULLTEXT_SUMMARIES`, parallel summaries, metadata digests, epoxy
digests, and the final `NO_LITERATURE` / `SUCCESS` choice.  Worker-pool
size and timings are resource parameters without observable effect here. -/
def chembrainQuery (env : ChembrainEnv) (query_description : String) : QueryResult :=
  match queryCandidates env query_description with
  | none => ⟨[], StatusCode.OTHER_ERROR⟩
  | some (dois, query_data_dict, metadata_dict) =>
    let epoxy_entries := query_data_dict.filter
      (fun kv => kv.1.startsWith "epoxy_")
    if dois.isEmpty ∧ epoxy_entries.isEmpty then ⟨[], StatusCode.NO_RESULTS⟩
    else
      let check_results := dois.map (fun d => (d, !(env.readFull d = "")))
      let dois_with_fulltext := (check_results.filter (fun p => p.2)).map (fun p => p.1)
      let dois_without_fulltext := (check_results.filter (fun p => !p.2)).map (fun p => p.1)
      let dois_with2 :=
        if dois_with_fulltext.length > MAX_FULLTEXT_SUMMARIES then
          dois_with_fulltext.take MAX_FULLTEXT_SUMMARIES
        else dois_with_fulltext
      let summary_texts_1 :=
        if !dois_with2.isEmpty then
          let lit := generate_literature_summaries_parallel dois_with2
            query_description env.readFull env.attemptsFor env.maxRetries
          if !lit.isEmpty then lit.map (fun e => e.summary) else []
        else []
      let summary_texts_2 :=
        if !dois_without_fulltext.isEmpty then
          metadataSummariesFor env query_description dois_without_fulltext
            query_data_dict metadata_dict
        else []
      let summary_texts_3 :=
        if !epoxy_entries.isEmpty then
          epoxySummaries env query_description epoxy_entries
        else []
      let summary_texts := summary_texts_1 ++ summary_texts_2 ++ summary_texts_3
      if summary_texts.isEmpty then ⟨[], StatusCode.NO_LITERATURE⟩
      else ⟨summary_texts, StatusCode.SUCCESS⟩

/-- C7: whenever the structured path yields an empty candidate set — no
document identifiers from any queried table and no synthetic `epoxy_`-keyed
entries — the public query returns `{summaries: [], code: NO_RESULTS}`,
and `NO_RESULTS = 1`. -/
theorem claim_C7_empty_candidates_no_results (env : ChembrainEnv) (q : String)
    (dois : List String) (qd md : PyMap)
    (hc : queryCandidates env q = some (dois, qd, md))
    (hdois : dois = [])
    (hepoxy : qd.filter (fun kv => kv.1.startsWith "epoxy_") = []) :
    chembrainQuery env q = ⟨[], StatusCode.NO_RESULTS⟩ ∧ StatusCode.NO_RESULTS = 1 := by
  refine ⟨?_, rfl⟩
  unfold chembrainQuery
  rw [hc]
  dsimp only
  rw [if_pos ?hcond]
  case hcond =>
    subst hdois
    rw [hepoxy]
    exact ⟨rfl, rfl⟩

/-- The trivial environment for the C7 witness: the LLM translates the
query to a well-formed multi-table filter set with zero tables. -/
def c7env : ChembrainEnv :=
  { convert := fun _ => some (.obj [("tables", .arr [])])
    qdb := fun _ _ => ([], [], [])
    readFull := fun _ => ""
    attemptsFor := fun _ _ => .ok ""
    requery := fun _ => []
    metaSum := fun _ _ _ => ""
    maxRetries := 3 }

theorem claim_C7_empty_candidates_no_results_witness :
    (queryCandidates c7env "q" = some ([], [], []) ∧
      ([] : List String) = [] ∧
      ([] : PyMap).filter (fun kv => kv.1.startsWith "epoxy_") = []) ∧
    (chembrainQuery c7env "q" = ⟨[], StatusCode.NO_RESULTS⟩ ∧
      StatusCode.NO_RESULTS = 1) :=
  ⟨⟨rfl, rfl, rfl⟩,
    claim_C7_empty_candidates_no_results c7env "q" [] [] [] rfl rfl rfl⟩
